import Mathlib

/-!
Verification of the flight-alert bot's price-tracking and deal-classification
engine (`flight_alert_bot.py`), shallowly embedded in Lean 4.

Prices are modelled as exact rationals (`ℚ`), timestamps as natural-number
ticks, and the persisted price-history dictionary as a partial map from
route keys to observation lists (absent key = key not in the dict).
-/

/-- One entry of `PriceTracker.price_history[route_key]`:
`{'price': price, 'timestamp': ...}`. -/
structure PriceObs where
  price : ℚ
  timestamp : ℕ
deriving DecidableEq, Repr

/-- The `PriceTracker.price_history` dict: `route_key` → list of observations,
oldest first; `none` models a key absent from the dict. -/
def Store : Type := String → Option (List PriceObs)

/-- `PriceTracker.get_route_key`: `f"{origin}-{destination}-{date}"`. -/
def getRouteKey (origin destination date : String) : String :=
  origin ++ "-" ++ destination ++ "-" ++ date

/-- The store's list for a key, `[]` when the key is absent. -/
def storedObs (store : Store) (key : String) : List PriceObs :=
  (store key).getD []

/-- The Python slice `l[-n:]`: the last `n` elements of `l`
(all of `l` when it is shorter than `n`). -/
def lastN (n : ℕ) (l : List PriceObs) : List PriceObs :=
  l.drop (l.length - n)

/-- `PriceTracker.add_price`: ensure the key is present, append the new
observation, and keep only the last 30 observations (`[-30:]`). -/
def addPrice (store : Store) (key : String) (o : PriceObs) : Store :=
  fun k =>
    if k = key then some (lastN 30 ((storedObs store key) ++ [o]))
    else store k

/-- `PriceTracker.get_average_price`: `None` when the key is absent or has
fewer than 3 observations, else the arithmetic mean of the stored prices. -/
def getAveragePrice (store : Store) (key : String) : Option ℚ :=
  match store key with
  | none => none
  | some l => if l.length < 3 then none
              else some ((l.map PriceObs.price).sum / l.length)

/-- The empty store: `price_history = {}`. -/
def emptyStore : Store := fun _ => none

/-- A sequence of `add_price` calls on one key. -/
def runAddPrices (store : Store) (key : String) (obs : List PriceObs) : Store :=
  obs.foldl (fun s o => addPrice s key o) store

-- Basic window lemmas

theorem lastN_eq_rtake (n : ℕ) (l : List PriceObs) : lastN n l = l.rtake n := rfl

theorem lastN_length_le (n : ℕ) (l : List PriceObs) : (lastN n l).length ≤ n := by
  simp only [lastN, List.length_drop]
  omega

theorem lastN_suffix (n : ℕ) (l : List PriceObs) : (lastN n l).IsSuffix l :=
  List.drop_suffix _ _

theorem lastN_of_length_le (n : ℕ) (l : List PriceObs) (h : l.length ≤ n) :
    lastN n l = l := by
  simp only [lastN]
  rw [Nat.sub_eq_zero_of_le h, List.drop_zero]

theorem lastN_lastN_append (n : ℕ) (l : List PriceObs) (o : PriceObs) :
    lastN n (lastN n l ++ [o]) = lastN n (l ++ [o]) := by
  rw [lastN_eq_rtake, lastN_eq_rtake, lastN_eq_rtake]
  rw [List.rtake_eq_reverse_take_reverse, List.rtake_eq_reverse_take_reverse,
    List.rtake_eq_reverse_take_reverse]
  cases n with
  | zero => simp
  | succ m =>
      congr 1
      simp only [List.reverse_append, List.reverse_reverse, List.reverse_singleton,
        List.singleton_append, List.take_succ_cons, List.take_take]
      rw [Nat.min_eq_left (Nat.le_succ m)]

theorem storedObs_addPrice_self (store : Store) (key : String) (o : PriceObs) :
    storedObs (addPrice store key o) key = lastN 30 ((storedObs store key) ++ [o]) := by
  simp [storedObs, addPrice]

theorem runAddPrices_storedObs (key : String) (obs : List PriceObs) :
    ∀ (store : Store) (l : List PriceObs), storedObs store key = lastN 30 l →
      storedObs (runAddPrices store key obs) key = lastN 30 (l ++ obs) := by
  induction obs with
  | nil => intro store l h; simpa [runAddPrices] using h
  | cons o rest ih =>
      intro store l h
      have hstep : storedObs (addPrice store key o) key = lastN 30 (l ++ [o]) := by
        rw [storedObs_addPrice_self, h, lastN_lastN_append]
      have : runAddPrices store key (o :: rest) =
          runAddPrices (addPrice store key o) key rest := by
        simp [runAddPrices]
      rw [this, ih _ _ hstep, List.append_assoc, List.singleton_append]

theorem storedObs_empty (key : String) : storedObs emptyStore key = lastN 30 [] := rfl

/-- A fare as retained from one Amadeus offer: the price plus a tag standing
for the remaining payload fields (departure, arrival, carrier, …). -/
structure Fare where
  price : ℚ
  tag : ℕ
deriving DecidableEq, Repr

/-- One entry of the `price_drop_alerts` list built in `check_all_routes`. -/
structure DropAlert where
  fare : Fare
  avg_price : ℚ
  drop_percentage : ℚ
deriving DecidableEq, Repr

/-- Lines 438–449 of `check_all_routes`: the price-drop decision, given the
value `get_average_price` returned.  Python's `if avg_price and price < avg_price`
tests truthiness, so `None` and an average of `0` both fail the guard. -/
def dropCheck (f : Fare) (avg : Option ℚ) : List DropAlert :=
  match avg with
  | none => []
  | some a =>
      if a ≠ 0 ∧ f.price < a then
        if (a - f.price) / a ≥ 1/5 then [⟨f, a, ((a - f.price) / a) * 100⟩]
        else []
      else []

/-- Lines 428–435 of `check_all_routes`: the digest decision against the
route's price ceiling (`threshold_savings >= 0.20`). -/
def digestCheck (maxPrice : ℚ) (f : Fare) : List Fare :=
  if (maxPrice - f.price) / maxPrice ≥ 1/5 then [f] else []

/-- The classification of one retained fare: the digest entries and drop
alerts it contributes, given the baseline average. -/
def classifyStep (maxPrice : ℚ) (f : Fare) (avg : Option ℚ) :
    List Fare × List DropAlert :=
  (digestCheck maxPrice f, dropCheck f avg)

/-- Lines 417–449 of `check_all_routes` for one route: if a best flight was
found, record its price (`add_price`), then classify it against the route
ceiling and against `get_average_price` of the *updated* store.
Returns (digest entries, drop alerts, updated store). -/
def processRoute (store : Store) (key : String) (maxPrice : ℚ)
    (best : Option Fare) (ts : ℕ) : List Fare × List DropAlert × Store :=
  match best with
  | none => ([], [], store)
  | some f =>
      let stAfter := addPrice store key ⟨f.price, ts⟩
      let avg := getAveragePrice stAfter key
      (digestCheck maxPrice f, dropCheck f avg, stAfter)

/-- A point in local time, as the digest gate sees it: `now.date()` is a day
index, `now.hour` the hour of day. -/
structure Now where
  date : ℕ
  hour : ℕ
deriving DecidableEq, Repr

/-- `FlightAlertBot.should_send_daily_digest`: at or after 09:00 local, if
`last_digest_date` differs from today, set it to today and return `True`;
otherwise return `False`.  Returns (decision, updated `last_digest_date`). -/
def shouldSendDailyDigest (last : Option ℕ) (now : Now) : Bool × Option ℕ :=
  if 9 ≤ now.hour then
    if last ≠ some now.date then (true, some now.date)
    else (false, last)
  else (false, last)

/-- Repeated scheduler cycles: fold the gate over a list of wake-up times,
counting how many times it opened.  Returns (open count, final state). -/
def runGate (last : Option ℕ) (times : List Now) : ℕ × Option ℕ :=
  times.foldl
    (fun acc t =>
      (if (shouldSendDailyDigest acc.2 t).1 then acc.1 + 1 else acc.1,
       (shouldSendDailyDigest acc.2 t).2))
    (0, last)

/-- `FlightAlertBot.format_daily_digest`, abstracted to its observable shape:
`None` exactly when the `deals_by_region` dict is falsy (empty), otherwise a
digest whose headline count is `total_deals = sum of len(deals)`. -/
def formatDailyDigest (deals : List (String × List Fare)) : Option ℕ :=
  if deals = [] then none
  else some ((deals.map (fun rd => rd.2.length)).sum)

/-- The digest-shaped notification the `run` loop sends once the gate opens. -/
inductive DigestNotification where
  | digest (totalDeals : ℕ)
  | noDeals
deriving DecidableEq, Repr

/-- Lines 494–502 of `run`: send the formatted digest if `format_daily_digest`
returned one, else the "No exceptional deals found today" message. -/
def digestDispatch (deals : List (String × List Fare)) : DigestNotification :=
  match formatDailyDigest deals with
  | some n => DigestNotification.digest n
  | none => DigestNotification.noDeals

/-- The region names of the static route catalog `self.routes`. -/
def routeRegions : List String :=
  ["US & Canada", "Europe", "Asia", "Brazil", "Chile", "Argentina"]

/-- Line 393 of `check_all_routes`:
`deals_by_region = {region: [] for region in self.routes.keys()}`. -/
def initDealsByRegion : List (String × List Fare) :=
  routeRegions.map (fun r => (r, []))

/-- The body of the accumulator in `AmadeusAPI.search_flights` and in
`check_all_routes`: keep the incumbent unless the new fare is strictly
cheaper (so the first-seen fare wins ties). -/
def chooseCheaper (best : Option Fare) (f : Fare) : Option Fare :=
  match best with
  | none => some f
  | some b => if f.price < b.price then some f else best

/-- `AmadeusAPI.search_flights` over a decoded offer list: skip offers with
`price > max_price`, otherwise keep the cheapest seen so far. -/
def searchFlights (offers : List Fare) (maxPrice : ℚ) : Option Fare :=
  offers.foldl
    (fun cheapest offer =>
      if offer.price > maxPrice then cheapest
      else chooseCheaper cheapest offer)
    none

/-- Lines 399–415 of `check_all_routes`: fold the per-(origin, date) search
results in iteration order, retaining the strictly cheaper fare. -/
def bestFlight (results : List (Option Fare)) : Option Fare :=
  results.foldl
    (fun best r =>
      match r with
      | none => best
      | some f => chooseCheaper best f)
    none

/-- Modelled from the spec ("lowest price wins; ties broken by first-seen"):
the first price-minimal element of a fare list, `none` on the empty list. -/
def firstMin : List Fare → Option Fare
  | [] => none
  | f :: fs =>
      match firstMin fs with
      | none => some f
      | some g => if g.price < f.price then some g else some f

/-- Left-biased combination of two retained fares (earlier argument wins
ties). -/
def combineOpt (b g : Option Fare) : Option Fare :=
  match b, g with
  | none, g => g
  | some b, none => some b
  | some b, some g => if g.price < b.price then some g else some b

/-- A store holding exactly three observations for key "k". -/
def demoStore : Store :=
  fun k => if k = "k" then some [⟨100, 0⟩, ⟨200, 1⟩, ⟨300, 2⟩] else none

/-- A store holding a full 30-observation window for key "k". -/
def demoStore30 : Store :=
  fun k => if k = "k" then some (List.replicate 30 ⟨1, 0⟩) else none

/-- C1: a DROP alert is emitted exactly when the baseline is present, the
price is strictly below it, and the drop ratio `(baseline - price)/baseline`
is at least 0.20; the single alert carries the baseline and the ratio as a
percentage, and when any condition fails no DROP alert is emitted. -/
theorem drop_alert_characterization (mp : ℚ) (f : Fare) (b : Option ℚ) :
    (classifyStep mp f b).2 =
      match b with
      | none => []
      | some a =>
          if f.price < a ∧ (1/5 : ℚ) ≤ (a - f.price) / a
          then [⟨f, a, ((a - f.price) / a) * 100⟩] else [] := by
  cases b with
  | none => rfl
  | some a =>
      by_cases ha : a = 0
      · subst ha
        simp [classifyStep, dropCheck, div_zero]
      · simp only [classifyStep, dropCheck, ge_iff_le]
        by_cases hp : f.price < a
        · rw [if_pos ⟨ha, hp⟩]
          by_cases hr : (1/5 : ℚ) ≤ (a - f.price) / a
          · rw [if_pos hr, if_pos ⟨hp, hr⟩]
          · rw [if_neg hr, if_neg (fun hc => hr hc.2)]
        · rw [if_neg (fun hc => hp hc.2), if_neg (fun hc => hp hc.1)]

/-- C2: with a positive price ceiling, a DIGEST alert is emitted iff the
savings ratio `(max_price - price)/max_price` is at least 0.20; the digest
decision ignores the baseline, the drop decision ignores the ceiling, the
700/500/no-baseline scenario yields one DIGEST and no DROP, and both alert
kinds can fire for the same fare. -/
theorem digest_alert_characterization (mp : ℚ) (f : Fare) (b : Option ℚ)
    (h : 0 < mp) :
    ((classifyStep mp f b).1 = [f] ↔ (1/5 : ℚ) ≤ (mp - f.price) / mp) ∧
    ((classifyStep mp f b).1 = [] ↔ ¬ (1/5 : ℚ) ≤ (mp - f.price) / mp) ∧
    (classifyStep mp f b).1 = (classifyStep mp f none).1 ∧
    (∀ mp2 : ℚ, (classifyStep mp f b).2 = (classifyStep mp2 f b).2) ∧
    (classifyStep mp f none).2 = [] ∧
    (∃ (mp0 : ℚ) (f0 : Fare) (b0 : Option ℚ),
      (classifyStep mp0 f0 b0).1 ≠ [] ∧ (classifyStep mp0 f0 b0).2 ≠ []) := by
  have hd : (classifyStep mp f b).1 =
      if (1/5 : ℚ) ≤ (mp - f.price) / mp then [f] else [] := by
    simp only [classifyStep, digestCheck, ge_iff_le]
  refine ⟨?_, ?_, rfl, fun mp2 => rfl, rfl,
    ⟨700, (⟨100, 0⟩ : Fare), some 500, ?_, ?_⟩⟩
  · rw [hd]
    split_ifs with hc
    · exact ⟨fun _ => hc, fun _ => rfl⟩
    · constructor
      · intro hh; exact absurd hh (by simp)
      · intro hh; exact absurd hh hc
  · rw [hd]
    split_ifs with hc
    · constructor
      · intro hh; exact absurd hh (by simp)
      · intro hh; exact absurd hc hh
    · exact ⟨fun _ => hc, fun _ => rfl⟩
  · simp [classifyStep, digestCheck]
    norm_num
  · simp [classifyStep, dropCheck]
    norm_num

/-- Witness for C2: the spec scenario `max_price=700`, `price=500`, baseline
absent gives exactly one DIGEST alert and no DROP alert. -/
theorem digest_alert_characterization_witness :
    (classifyStep 700 ⟨500, 0⟩ none).1 = [⟨500, 0⟩] ∧
    (classifyStep 700 ⟨500, 0⟩ none).2 = [] :=
  ⟨(digest_alert_characterization 700 ⟨500, 0⟩ none (by norm_num)).1.mpr
      (by norm_num),
   (digest_alert_characterization 700 ⟨500, 0⟩ none (by norm_num)).2.2.2.2.1⟩

/-- C3: `get_average_price` is `None` exactly when the key holds fewer than
3 observations, and otherwise returns the arithmetic mean (sum divided by
count) of all stored prices. -/
theorem average_characterization (store : Store) (key : String) :
    (getAveragePrice store key = none ↔ (storedObs store key).length < 3) ∧
    (3 ≤ (storedObs store key).length →
      getAveragePrice store key =
        some (((storedObs store key).map PriceObs.price).sum /
          (storedObs store key).length)) := by
  cases h : store key with
  | none =>
      constructor
      · simp [getAveragePrice, storedObs, h]
      · intro h3
        simp [storedObs, h] at h3
  | some l =>
      constructor
      · simp only [getAveragePrice, storedObs, h, Option.getD_some]
        split_ifs with hl
        · simpa using hl
        · simpa using hl
      · intro h3
        simp only [storedObs, h, Option.getD_some] at h3
        simp only [getAveragePrice, storedObs, h, Option.getD_some]
        rw [if_neg (by omega)]

/-- Witness for C3: a store with three observations (100, 200, 300) has a
defined average, namely 200. -/
theorem average_characterization_witness :
    3 ≤ (storedObs demoStore "k").length ∧ getAveragePrice demoStore "k" =
      some (((storedObs demoStore "k").map PriceObs.price).sum /
        (storedObs demoStore "k").length) :=
  ⟨by simp [demoStore, storedObs],
   (average_characterization demoStore "k").2 (by simp [demoStore, storedObs])⟩

/-- C4: over any sequence of `add_price` calls on one key, the stored
sequence is exactly the last 30 insertions in insertion order (hence never
longer than 30 and a suffix of the insertion sequence), and an insertion
into a full 30-element window evicts exactly the oldest entry. -/
theorem price_window_invariant (key : String) (obs : List PriceObs) :
    storedObs (runAddPrices emptyStore key obs) key = lastN 30 obs ∧
    (storedObs (runAddPrices emptyStore key obs) key).length ≤ 30 ∧
    (storedObs (runAddPrices emptyStore key obs) key).IsSuffix obs ∧
    (∀ (s : Store) (o : PriceObs), (storedObs s key).length = 30 →
      storedObs (addPrice s key o) key = (storedObs s key).tail ++ [o]) := by
  have hmain : storedObs (runAddPrices emptyStore key obs) key = lastN 30 obs := by
    have := runAddPrices_storedObs key obs emptyStore [] (storedObs_empty key)
    simpa using this
  refine ⟨hmain, ?_, ?_, ?_⟩
  · rw [hmain]; exact lastN_length_le 30 obs
  · rw [hmain]; exact lastN_suffix 30 obs
  · intro s o hlen
    rw [storedObs_addPrice_self]
    have h31 : ((storedObs s key) ++ [o]).length = 31 := by
      simp [hlen]
    rw [lastN, h31]
    have h1 : (31 : ℕ) - 30 = 1 := rfl
    rw [h1, List.drop_one]
    cases hK : storedObs s key with
    | nil => rw [hK] at hlen; simp at hlen
    | cons x rest => simp

/-- Witness for C4: inserting into a full 30-element window drops the oldest
observation and appends the new one. -/
theorem price_window_invariant_witness :
    (storedObs demoStore30 "k").length = 30 ∧
    storedObs (addPrice demoStore30 "k" ⟨5, 30⟩) "k" =
      (storedObs demoStore30 "k").tail ++ [⟨5, 30⟩] :=
  ⟨by simp [demoStore30, storedObs],
   (price_window_invariant "k" []).2.2.2 demoStore30 ⟨5, 30⟩
     (by simp [demoStore30, storedObs])⟩

-- Gate lemmas

theorem gate_open_sets (last : Option ℕ) (t : Now)
    (h : (shouldSendDailyDigest last t).1 = true) :
    9 ≤ t.hour ∧ (shouldSendDailyDigest last t).2 = some t.date := by
  unfold shouldSendDailyDigest at h ⊢
  by_cases h1 : 9 ≤ t.hour
  · by_cases h2 : last ≠ some t.date
    · rw [if_pos h1, if_pos h2]
      exact ⟨h1, rfl⟩
    · rw [if_pos h1, if_neg h2] at h
      exact absurd h (by simp)
  · rw [if_neg h1] at h
    exact absurd h (by simp)

theorem gate_closed_keeps (last : Option ℕ) (t : Now)
    (h : (shouldSendDailyDigest last t).1 = false) :
    (shouldSendDailyDigest last t).2 = last := by
  unfold shouldSendDailyDigest at h ⊢
  by_cases h1 : 9 ≤ t.hour
  · by_cases h2 : last ≠ some t.date
    · rw [if_pos h1, if_pos h2] at h
      exact absurd h (by simp)
    · rw [if_pos h1, if_neg h2]
  · rw [if_neg h1]

theorem gate_closed_same_day (d : ℕ) (t : Now) (ht : t.date = d) :
    shouldSendDailyDigest (some d) t = (false, some d) := by
  unfold shouldSendDailyDigest
  subst ht
  by_cases h1 : 9 ≤ t.hour
  · rw [if_pos h1, if_neg (by simp)]
  · rw [if_neg h1]

theorem gateFold_closed (d : ℕ) (times : List Now)
    (h : ∀ t ∈ times, t.date = d) (c : ℕ) :
    times.foldl
      (fun acc t =>
        (if (shouldSendDailyDigest acc.2 t).1 then acc.1 + 1 else acc.1,
         (shouldSendDailyDigest acc.2 t).2))
      (c, some d) = (c, some d) := by
  induction times generalizing c with
  | nil => rfl
  | cons t rest ih =>
      have ht := h t (List.mem_cons_self t rest)
      have hstep := gate_closed_same_day d t ht
      simp only [List.foldl_cons, hstep]
      exact ih (fun u hu => h u (List.mem_cons_of_mem t hu)) c

theorem gateFold_le_one (d : ℕ) (times : List Now)
    (h : ∀ t ∈ times, t.date = d) (last : Option ℕ) :
    (runGate last times).1 ≤ 1 := by
  unfold runGate
  induction times generalizing last with
  | nil => simp
  | cons t rest ih =>
      have ht := h t (List.mem_cons_self t rest)
      have hrest : ∀ u ∈ rest, u.date = d :=
        fun u hu => h u (List.mem_cons_of_mem t hu)
      simp only [List.foldl_cons]
      rcases hs : shouldSendDailyDigest last t with ⟨b, st⟩
      cases b with
      | false =>
          have hkeep : st = last := by
            have h2 := gate_closed_keeps last t (by rw [hs])
            rw [hs] at h2
            simpa using h2
          simp only [hs, hkeep]
          exact ih hrest last
      | true =>
          have hset : st = some d := by
            have h2 := (gate_open_sets last t (by rw [hs])).2
            rw [hs] at h2
            simp only at h2
            rw [ht] at h2
            exact h2
          simp only [hs, hset]
          have hcl := gateFold_closed d rest hrest 1
          exact le_of_eq (congrArg Prod.fst hcl)

/-- C5: the digest gate opens at most once per calendar day and only when
the local hour is at least 9; `last_digest_date` is set to the current date
by the gate decision itself (before any dispatch happens, so a failed
dispatch cannot reopen it); with no prior digest, hour 10 opens the gate and
a second cycle at hour 14 the same day finds it closed. -/
theorem digest_gate_once_per_day (last : Option ℕ) (d : ℕ) (times : List Now)
    (h : ∀ t ∈ times, t.date = d) :
    (runGate last times).1 ≤ 1 ∧
    (∀ (l : Option ℕ) (n : Now), (shouldSendDailyDigest l n).1 = true →
      9 ≤ n.hour ∧ (shouldSendDailyDigest l n).2 = some n.date) ∧
    runGate none [⟨d, 10⟩, ⟨d, 14⟩] = (1, some d) := by
  refine ⟨gateFold_le_one d times h last, fun l n => gate_open_sets l n, ?_⟩
  have h1 : shouldSendDailyDigest none ⟨d, 10⟩ = (true, some d) := by
    unfold shouldSendDailyDigest
    simp
  have h2 : shouldSendDailyDigest (some d) ⟨d, 14⟩ = (false, some d) :=
    gate_closed_same_day d ⟨d, 14⟩ rfl
  simp [runGate, h1, h2]

/-- Witness for C5: starting from no recorded digest date, the two cycles at
hours 10 and 14 of day 0 open the gate exactly once. -/
theorem digest_gate_once_per_day_witness :
    (runGate none [⟨0, 10⟩, ⟨0, 14⟩]).1 ≤ 1 ∧
    runGate none [⟨0, 10⟩, ⟨0, 14⟩] = (1, some 0) :=
  ⟨(digest_gate_once_per_day none 0 [⟨0, 10⟩, ⟨0, 14⟩] (by decide)).1,
   (digest_gate_once_per_day none 0 [⟨0, 10⟩, ⟨0, 14⟩] (by decide)).2.2⟩

/-- C6 (refuted — code bug): the claim says a cycle whose gate opens with
zero accumulated digest alerts sends the distinct "no deals today"
notification.  In the code `deals_by_region` is initialised with every
region as a key, so it is never the falsy (empty) dict: `format_daily_digest`
returns a digest reading "Found 0 great deal(s) today!" and the "no deals"
branch of `run` is unreachable.  Evaluated at the failing input (no deals
accumulated in any region), the dispatched notification is the grouped
digest with 0 deals, never the no-deals message. -/
theorem no_deals_digest_bug :
    formatDailyDigest initDealsByRegion = some 0 ∧
    digestDispatch initDealsByRegion = DigestNotification.digest 0 ∧
    digestDispatch initDealsByRegion ≠ DigestNotification.noDeals := by
  refine ⟨?_, ?_, ?_⟩ <;> decide

-- Search / retention lemmas

theorem firstMin_cons (f : Fare) (l : List Fare) :
    firstMin (f :: l) = combineOpt (some f) (firstMin l) := by
  cases h : firstMin l <;> simp [firstMin, combineOpt, h]

theorem combineOpt_none (x : Option Fare) : combineOpt none x = x := rfl

theorem foldl_chooseCheaper (l : List Fare) :
    ∀ b : Option Fare, l.foldl chooseCheaper b = combineOpt b (firstMin l) := by
  induction l with
  | nil => intro b; cases b <;> rfl
  | cons f fs ih =>
      intro b
      rw [List.foldl_cons, ih (chooseCheaper b f), firstMin_cons]
      cases b with
      | none => rfl
      | some b0 =>
          cases hfs : firstMin fs with
          | none =>
              by_cases h1 : f.price < b0.price
              · simp [chooseCheaper, combineOpt, h1]
              · simp [chooseCheaper, combineOpt, h1]
          | some g =>
              by_cases h1 : f.price < b0.price
              · by_cases h2 : g.price < f.price
                · have h3 : g.price < b0.price := lt_trans h2 h1
                  simp [chooseCheaper, combineOpt, h1, h2, h3]
                · simp [chooseCheaper, combineOpt, h1, h2]
              · by_cases h2 : g.price < f.price
                · simp [chooseCheaper, combineOpt, h1, h2]
                · have h3 : ¬ g.price < b0.price :=
                    not_lt.mpr (le_trans (not_lt.mp h1) (not_lt.mp h2))
                  simp [chooseCheaper, combineOpt, h1, h2, h3]

theorem searchFlights_eq_firstMin (offers : List Fare) (mp : ℚ) :
    searchFlights offers mp =
      firstMin (offers.filter (fun o => decide (o.price ≤ mp))) := by
  have key : ∀ (l : List Fare) (b : Option Fare),
      l.foldl (fun cheapest offer =>
        if offer.price > mp then cheapest else chooseCheaper cheapest offer) b =
      (l.filter (fun o => decide (o.price ≤ mp))).foldl chooseCheaper b := by
    intro l
    induction l with
    | nil => intro b; rfl
    | cons o os ih =>
        intro b
        rw [List.foldl_cons]
        by_cases ho : o.price > mp
        · rw [if_pos ho, List.filter_cons, if_neg (by simpa using not_le.mpr ho)]
          exact ih b
        · rw [if_neg ho, List.filter_cons,
            if_pos (by simpa using not_lt.mp ho), List.foldl_cons]
          exact ih (chooseCheaper b o)
  rw [searchFlights, key offers none, foldl_chooseCheaper]
  cases firstMin (offers.filter (fun o => decide (o.price ≤ mp))) <;> rfl

theorem bestFlight_eq_firstMin (results : List (Option Fare)) :
    bestFlight results = firstMin (results.filterMap id) := by
  have key : ∀ (rs : List (Option Fare)) (b : Option Fare),
      rs.foldl (fun best r => match r with
        | none => best
        | some f => chooseCheaper best f) b =
      (rs.filterMap id).foldl chooseCheaper b := by
    intro rs
    induction rs with
    | nil => intro b; rfl
    | cons r rest ih =>
        intro b
        cases r with
        | none =>
            rw [List.foldl_cons]
            simpa [List.filterMap_cons] using ih b
        | some f =>
            rw [List.foldl_cons]
            simpa [List.filterMap_cons] using ih (chooseCheaper b f)
  rw [bestFlight, key results none, foldl_chooseCheaper]
  cases firstMin (results.filterMap id) <;> rfl

theorem firstMin_append (A B : List Fare) :
    firstMin (A ++ B) = combineOpt (firstMin A) (firstMin B) := by
  induction A with
  | nil => rfl
  | cons a A ih =>
      rw [List.cons_append, firstMin_cons, ih, firstMin_cons]
      cases hA : firstMin A with
      | none => rfl
      | some g =>
          cases hB : firstMin B with
          | none =>
              by_cases h1 : g.price < a.price
              · simp [combineOpt, h1]
              · simp [combineOpt, h1]
          | some g2 =>
              by_cases h1 : g2.price < g.price
              · by_cases h2 : g.price < a.price
                · have h3 : g2.price < a.price := lt_trans h1 h2
                  simp [combineOpt, h1, h2, h3]
                · simp [combineOpt, h1, h2]
              · by_cases h2 : g.price < a.price
                · simp [combineOpt, h1, h2]
                · have h3 : ¬ g2.price < a.price :=
                    not_lt.mpr (le_trans (not_lt.mp h2) (not_lt.mp h1))
                  simp [combineOpt, h1, h2, h3]

/-- C7: across all origins and horizon dates of a route, the SEARCH phase
retains exactly the first-seen lowest-priced fare among all returned offers
priced at or under `max_price` (ties go to the earlier offer in
origin-then-date order), and retains nothing when no offer qualifies. -/
theorem search_retains_cheapest (calls : List (List Fare)) (mp : ℚ) :
    bestFlight (calls.map (fun c => searchFlights c mp)) =
      firstMin (calls.flatten.filter (fun o => decide (o.price ≤ mp))) := by
  induction calls with
  | nil => rfl
  | cons c cs ih =>
      rw [List.map_cons, bestFlight_eq_firstMin, List.flatten_cons,
        List.filter_append, firstMin_append]
      rw [bestFlight_eq_firstMin] at ih
      rw [searchFlights_eq_firstMin]
      cases hc : firstMin (c.filter (fun o => decide (o.price ≤ mp))) with
      | none => exact ih
      | some g =>
          have hred : List.filterMap id
              (some g :: List.map (fun c => searchFlights c mp) cs) =
              g :: List.filterMap id (List.map (fun c => searchFlights c mp) cs) :=
            rfl
          rw [hred, firstMin_cons, ih]

-- History-size lemmas for the drop decision

/-- A store holding two prior 600-priced observations for key "k". -/
def demoStore2 : Store :=
  fun k => if k = "k" then some [⟨600, 0⟩, ⟨600, 1⟩] else none

/-- A store holding a full 30-observation window whose oldest entry (price
60) differs from the rest (price 30), for key "k". -/
def fullHistory : List PriceObs := ⟨60, 0⟩ :: List.replicate 29 ⟨30, 0⟩

def fullStore : Store := fun k => if k = "k" then some fullHistory else none

theorem getAveragePrice_some_length (store : Store) (key : String) (a : ℚ)
    (h : getAveragePrice store key = some a) :
    3 ≤ (storedObs store key).length := by
  cases hk : store key with
  | none => simp [getAveragePrice, hk] at h
  | some l =>
      simp only [getAveragePrice, hk] at h
      by_cases hl : l.length < 3
      · rw [if_pos hl] at h
        exact absurd h (by simp)
      · simp only [storedObs, hk, Option.getD_some]
        omega

/-- C8: a DROP alert is produced only when the recorded history for the
route key (including the just-recorded price) holds at least 3
observations; with fewer than 3 the baseline is absent and no DROP alert
can be emitted regardless of prices. -/
theorem drop_requires_min_history (store : Store) (key : String) (mp : ℚ)
    (best : Option Fare) (ts : ℕ) :
    ((processRoute store key mp best ts).2.1 ≠ [] →
      3 ≤ (storedObs (processRoute store key mp best ts).2.2 key).length) ∧
    ((storedObs (processRoute store key mp best ts).2.2 key).length < 3 →
      (processRoute store key mp best ts).2.1 = []) := by
  have main : (processRoute store key mp best ts).2.1 ≠ [] →
      3 ≤ (storedObs (processRoute store key mp best ts).2.2 key).length := by
    intro hne
    cases best with
    | none => exact absurd rfl hne
    | some f =>
        simp only [processRoute] at hne ⊢
        cases ha : getAveragePrice (addPrice store key ⟨f.price, ts⟩) key with
        | none =>
            rw [ha] at hne
            exact absurd rfl hne
        | some a => exact getAveragePrice_some_length _ _ a ha
  refine ⟨main, fun hlt => ?_⟩
  by_contra hne
  exact absurd (main hne) (by omega)

/-- Witness for C8: two prior 600-priced observations plus a recorded 150
fare make a 3-element history and a real DROP alert. -/
theorem drop_requires_min_history_witness :
    (processRoute demoStore2 "k" 700 (some ⟨150, 2⟩) 2).2.1 ≠ [] ∧
    3 ≤ (storedObs (processRoute demoStore2 "k" 700 (some ⟨150, 2⟩) 2).2.2
      "k").length := by
  have hne : (processRoute demoStore2 "k" 700 (some ⟨150, 2⟩) 2).2.1 ≠ [] := by
    norm_num [processRoute, addPrice, storedObs, demoStore2, lastN,
      getAveragePrice, dropCheck]
  exact ⟨hne,
    (drop_requires_min_history demoStore2 "k" 700 (some ⟨150, 2⟩) 2).1 hne⟩

/-- C9 counterexample: at the 30-observation cap the claimed formula
`(k·m + p)/(k+1)` fails.  With 30 prior observations of mean 31 (one 60 and
twenty-nine 30s), recording price 15 first evicts the oldest entry, so the
baseline the drop decision uses is 885/30 = 59/2, while the claim predicts
(30·31 + 15)/31. -/
theorem baseline_formula_counterexample :
    fullHistory.length = 30 ∧
    ((fullHistory.map PriceObs.price).sum / fullHistory.length : ℚ) = 31 ∧
    getAveragePrice (processRoute fullStore "k" 700 (some ⟨15, 30⟩) 30).2.2
      "k" = some (59/2) ∧
    (processRoute fullStore "k" 700 (some ⟨15, 30⟩) 30).2.1 =
      [⟨⟨15, 30⟩, 59/2, ((59/2 - 15) / (59/2)) * 100⟩] ∧
    ((30 : ℚ) * 31 + 15) / (30 + 1) ≠ 59/2 := by
  have hlist : lastN 30 (fullHistory ++ [⟨15, 30⟩]) =
      List.replicate 29 ⟨30, 0⟩ ++ [⟨15, 30⟩] := by
    unfold lastN fullHistory
    simp
  have havg : getAveragePrice (processRoute fullStore "k" 700
      (some ⟨15, 30⟩) 30).2.2 "k" = some (59/2) := by
    simp only [processRoute]
    show getAveragePrice (addPrice fullStore "k" ⟨15, 30⟩) "k" = _
    unfold getAveragePrice addPrice storedObs
    norm_num [fullStore, hlist, List.map_append, List.map_replicate,
      List.sum_replicate]
  refine ⟨by simp [fullHistory], ?_, havg, ?_, by norm_num⟩
  · norm_num [fullHistory, List.map_replicate, List.sum_replicate]
  · simp only [processRoute]
    show dropCheck ⟨15, 30⟩ (getAveragePrice (addPrice fullStore "k" ⟨15, 30⟩)
      "k") = _
    have : getAveragePrice (addPrice fullStore "k" ⟨15, 30⟩) "k" =
        some (59/2) := havg
    rw [this]
    norm_num [dropCheck]

/-- C9 (amended): in the CLASSIFY step `add_price` runs before
`get_average_price`, so the baseline includes the just-recorded price: for a
key holding k prior observations with mean m and 2 ≤ k < 30, the drop
decision compares the current price p against (k·m + p)/(k+1).  (At the cap
k = 30 the oldest prior observation is evicted first, so the original
unrestricted formula fails — see the counterexample.) -/
theorem baseline_includes_current_amended (store : Store) (key : String)
    (mp : ℚ) (f : Fare) (ts : ℕ)
    (h2 : 2 ≤ (storedObs store key).length)
    (h30 : (storedObs store key).length < 30) :
    getAveragePrice (processRoute store key mp (some f) ts).2.2 key =
      some ((((storedObs store key).length : ℚ) *
          ((((storedObs store key).map PriceObs.price).sum) /
            ((storedObs store key).length : ℚ)) + f.price) /
        (((storedObs store key).length : ℚ) + 1)) := by
  have hlast : lastN 30 ((storedObs store key) ++ [⟨f.price, ts⟩]) =
      (storedObs store key) ++ [⟨f.price, ts⟩] :=
    lastN_of_length_le 30 _ (by simp; omega)
  have hst : (processRoute store key mp (some f) ts).2.2 key =
      some ((storedObs store key) ++ [⟨f.price, ts⟩]) := by
    simp only [processRoute]
    show addPrice store key ⟨f.price, ts⟩ key = _
    unfold addPrice
    rw [if_pos rfl, hlast]
  simp only [getAveragePrice, hst]
  rw [if_neg (by simp; omega)]
  have hk0 : ((storedObs store key).length : ℚ) ≠ 0 :=
    Nat.cast_ne_zero.mpr (by omega)
  have hmul : ((storedObs store key).length : ℚ) *
      ((((storedObs store key).map PriceObs.price).sum) /
        ((storedObs store key).length : ℚ)) =
      (((storedObs store key).map PriceObs.price).sum) := by
    field_simp
  rw [hmul]
  congr 1
  simp [List.sum_append]

/-- Witness for C9 (amended): two prior 600s and a recorded 150 give
baseline (2·600 + 150)/3 = 450. -/
theorem baseline_includes_current_amended_witness :
    2 ≤ (storedObs demoStore2 "k").length ∧
    (storedObs demoStore2 "k").length < 30 ∧
    getAveragePrice (processRoute demoStore2 "k" 700 (some ⟨150, 2⟩) 2).2.2
      "k" = some ((((storedObs demoStore2 "k").length : ℚ) *
          ((((storedObs demoStore2 "k").map PriceObs.price).sum) /
            ((storedObs demoStore2 "k").length : ℚ)) + (150 : ℚ)) /
        (((storedObs demoStore2 "k").length : ℚ) + 1)) :=
  ⟨by simp [demoStore2, storedObs], by simp [demoStore2, storedObs],
   baseline_includes_current_amended demoStore2 "k" 700 ⟨150, 2⟩ 2
     (by simp [demoStore2, storedObs]) (by simp [demoStore2, storedObs])⟩

/-- C10: every DROP alert's baseline is the present, non-zero average the
guard tested (Python truthiness of `avg_price`), so the drop-ratio division
is never a division by zero; a baseline of exactly 0 behaves like an absent
baseline, and a cycle whose recorded history averages exactly 0 emits no
DROP alert. -/
theorem drop_zero_baseline_guard :
    (∀ (mp : ℚ) (f : Fare) (b : Option ℚ) (d : DropAlert),
      d ∈ (classifyStep mp f b).2 → b = some d.avg_price ∧ d.avg_price ≠ 0) ∧
    (∀ (mp : ℚ) (f : Fare), (classifyStep mp f (some 0)).2 = [] ∧
      (classifyStep mp f (some 0)).2 = (classifyStep mp f none).2) ∧
    (∀ (store : Store) (key : String) (mp : ℚ) (f : Fare) (ts : ℕ),
      getAveragePrice (processRoute store key mp (some f) ts).2.2 key =
        some 0 →
      (processRoute store key mp (some f) ts).2.1 = []) := by
  refine ⟨?_, ?_, ?_⟩
  · intro mp f b d hd
    simp only [classifyStep] at hd
    cases b with
    | none => exact absurd hd (by simp [dropCheck])
    | some a =>
        simp only [dropCheck] at hd
        by_cases hg : a ≠ 0 ∧ f.price < a
        · rw [if_pos hg] at hd
          by_cases hr : (a - f.price) / a ≥ 1/5
          · rw [if_pos hr] at hd
            have hda : d = ⟨f, a, ((a - f.price) / a) * 100⟩ := by
              simpa using hd
            subst hda
            exact ⟨rfl, hg.1⟩
          · rw [if_neg hr] at hd
            exact absurd hd (by simp)
        · rw [if_neg hg] at hd
          exact absurd hd (by simp)
  · intro mp f
    exact ⟨by simp [classifyStep, dropCheck], by simp [classifyStep, dropCheck]⟩
  · intro store key mp f ts havg
    simp only [processRoute] at havg ⊢
    rw [havg]
    simp [dropCheck]

/-- Witness for C10: the DROP alert produced at price 100 against baseline
500 indeed carries the non-zero baseline 500. -/
theorem drop_zero_baseline_guard_witness :
    (⟨⟨100, 0⟩, 500, 80⟩ : DropAlert) ∈ (classifyStep 700 ⟨100, 0⟩
      (some 500)).2 ∧
    (some (500 : ℚ) = some (⟨⟨100, 0⟩, 500, 80⟩ : DropAlert).avg_price ∧
      (⟨⟨100, 0⟩, 500, 80⟩ : DropAlert).avg_price ≠ 0) := by
  have hmem : (⟨⟨100, 0⟩, 500, 80⟩ : DropAlert) ∈ (classifyStep 700 ⟨100, 0⟩
      (some 500)).2 := by
    norm_num [classifyStep, dropCheck]
  exact ⟨hmem, drop_zero_baseline_guard.1 700 ⟨100, 0⟩ (some 500) _ hmem⟩
